import Mathlib

/-!
Verification of the VideoTools repository's chapter/timestamp codecs and
media-conversion pipelines, as a shallow embedding in Lean.

Conventions of the embedding:
* Python strings are modelled as `List Char`; Python `int` as `ℤ`/`ℕ`.
* Python `float` values arising here are decimal numerals with a few
  fractional digits (timestamps), all exactly representable, so they are
  modelled as `ℚ` with exact arithmetic.
* Fallible Python code (exceptions) is modelled with `Option`.
* External processes (ffprobe, HandBrakeCLI, ffmpeg, mkvpropedit) are
  modelled by an environment record giving their observable outcomes, and
  each run is recorded in an invocation trace.
-/

namespace VideoTools

/-! ## Character and numeral utilities -/

/-- The decimal digit character for `d % 10`. -/
def digitCh (d : Nat) : Char :=
  match d % 10 with
  | 0 => '0' | 1 => '1' | 2 => '2' | 3 => '3' | 4 => '4'
  | 5 => '5' | 6 => '6' | 7 => '7' | 8 => '8' | _ => '9'

/-- Decimal digit string of a natural number (no padding), as Python's
`str`/`format` produce for a non-negative int. -/
def natDigits (n : Nat) : List Char :=
  if _h : n < 10 then [digitCh n]
  else natDigits (n / 10) ++ [digitCh (n % 10)]
termination_by n
decreasing_by exact Nat.div_lt_self (by omega) (by omega)

/-- Zero padding on the left to width `k`, as in Python `format(n, "0Nd")`. -/
def padZeros (k : Nat) (l : List Char) : List Char :=
  List.replicate (k - l.length) '0' ++ l

/-- Python `f-string` formatting of a natural number with zero padding. -/
def fmtNat (k n : Nat) : List Char := padZeros k (natDigits n)

/-- Numeric value of a digit string (junk characters contribute garbage;
callers guard with `Char.isDigit`). -/
def digitsVal (l : List Char) : Nat :=
  l.foldl (fun a c => 10 * a + (c.toNat - 48)) 0

/-- ASCII whitespace recognized by Python `str.strip` on the inputs that
occur here. -/
def isSpaceCh (c : Char) : Bool :=
  c == ' ' || c == '\t' || c == '\n' || c == '\r'

/-- Python `str.strip()`. -/
def stripCh (l : List Char) : List Char :=
  ((l.dropWhile isSpaceCh).reverse.dropWhile isSpaceCh).reverse

/-- Python `str.split(sep)` for a one-character separator (all splits). -/
def splitOnChar (sep : Char) : List Char → List (List Char)
  | [] => [[]]
  | c :: cs =>
    if c = sep then [] :: splitOnChar sep cs
    else
      match splitOnChar sep cs with
      | [] => [[c]]
      | l :: ls => (c :: l) :: ls

/-- The part after the first occurrence of `sep`, i.e. Python
`s.split(sep, 1)[1]`; `none` when `sep` is absent (an `IndexError`). -/
def afterFirst (sep : Char) : List Char → Option (List Char)
  | [] => none
  | c :: cs => if c = sep then some cs else afterFirst sep cs

/-- Split at the first occurrence of `sep` into (before, after). -/
def breakAt (sep : Char) : List Char → Option (List Char × List Char)
  | [] => none
  | c :: cs =>
    if c = sep then some ([], cs)
    else (breakAt sep cs).map (fun p => (c :: p.1, p.2))

/-- Python `s.split(sep, k)`: at most `k` splits. -/
def splitAtMost (sep : Char) : Nat → List Char → List (List Char)
  | 0, l => [l]
  | k + 1, l =>
    match breakAt sep l with
    | none => [l]
    | some (a, b) => a :: splitAtMost sep k b

/-- Python `str.isdigit()` (ASCII digits; the repository's inputs here are
ASCII numerals). -/
def pyIsDigit (l : List Char) : Bool := !l.isEmpty && l.all Char.isDigit

/-- A nonempty all-digit string parsed to a natural number. -/
def parseDigits (l : List Char) : Option Nat :=
  if pyIsDigit l then some (digitsVal l) else none

/-- Python `int(s)`: optional surrounding whitespace, optional sign,
then decimal digits; `none` models `ValueError`. -/
def pyInt (l : List Char) : Option Int :=
  match stripCh l with
  | '-' :: rest => (parseDigits rest).map (fun n => -(n : Int))
  | '+' :: rest => (parseDigits rest).map (fun n => (n : Int))
  | s => (parseDigits s).map (fun n => (n : Int))

/-- Python `float(s)` on the plain non-negative decimal numerals produced
and consumed by this repository (digits with at most one decimal point);
`none` models `ValueError`. -/
def pyFloat (l : List Char) : Option ℚ :=
  match splitOnChar '.' l with
  | [i] => if pyIsDigit i then some ((digitsVal i : ℚ)) else none
  | [i, f] =>
    if (!i.isEmpty || !f.isEmpty) && i.all Char.isDigit && f.all Char.isDigit then
      some ((digitsVal i : ℚ) + (digitsVal f : ℚ) / 10 ^ f.length)
    else none
  | _ => none

/-! ## Rounding (Python `round`, half to even) -/

/-- Round half to even to an integer, as Python's `round`. -/
def roundHalfEven (q : ℚ) : Int :=
  let f := ⌊q⌋
  let r := q - f
  if r < 1 / 2 then f
  else if 1 / 2 < r then f + 1
  else if Even f then f else f + 1

/-- Python `round(x, 6)`. -/
def pyRound6 (q : ℚ) : ℚ := (roundHalfEven (q * 1000000) : ℚ) / 1000000

/-! ## Timestamp model

`timestamp_to_seconds` is `write_chapters_for_oldcsv.timestamp_to_seconds`:
split a `HH:MM:SS.ffffff` text on `:`, convert the three components with
`float`, combine, and round to 6 decimal digits of a second.

`formatClock` is the clock-text formatter inlined in
`embedded_mkv_chapters.convert_pbf_to_chapters` (lines 104-110): the
`timedelta` for `ms` milliseconds is decomposed by `divmod` into
hours/minutes/seconds and the millisecond field; the float arithmetic used
there is exact on this integer data and is modelled exactly. -/

def timestamp_to_seconds (l : List Char) : Option ℚ :=
  match splitOnChar ':' l with
  | [h, m, s] =>
    match pyFloat h, pyFloat m, pyFloat s with
    | some hv, some mv, some sv => some (pyRound6 (hv * 3600 + mv * 60 + sv))
    | _, _, _ => none
  | _ => none

def formatClock (ms : Nat) : List Char :=
  let s := ms / 1000
  fmtNat 2 (s / 3600) ++ ':' ::
    (fmtNat 2 (s % 3600 / 60) ++ ':' ::
      (fmtNat 2 (s % 60) ++ '.' :: fmtNat 3 (ms % 1000)))

/-! ## Lemmas on digits, padding, splitting -/

theorem digitCh_cases (d : Nat) :
    (digitCh d).isDigit = true ∧ (digitCh d).toNat = 48 + d % 10 := by
  unfold digitCh
  rcases (by omega : d % 10 = 0 ∨ d % 10 = 1 ∨ d % 10 = 2 ∨ d % 10 = 3 ∨ d % 10 = 4 ∨
      d % 10 = 5 ∨ d % 10 = 6 ∨ d % 10 = 7 ∨ d % 10 = 8 ∨ d % 10 = 9) with
    h0 | h0 | h0 | h0 | h0 | h0 | h0 | h0 | h0 | h0 <;> rw [h0] <;> exact ⟨by decide, by decide⟩

theorem digitsVal_append (a : List Char) (c : Char) :
    digitsVal (a ++ [c]) = 10 * digitsVal a + (c.toNat - 48) := by
  unfold digitsVal
  rw [List.foldl_append]
  rfl

theorem natDigits_val (n : Nat) : digitsVal (natDigits n) = n := by
  induction n using Nat.strong_induction_on with
  | _ n ih =>
    rw [natDigits]
    split
    · next h =>
      have hd := digitCh_cases n
      unfold digitsVal
      simp only [List.foldl]
      omega
    · next h =>
      have h10 : n / 10 < n := Nat.div_lt_self (by omega) (by omega)
      rw [digitsVal_append, ih _ h10]
      have hd := digitCh_cases (n % 10)
      omega

theorem natDigits_all_digit (n : Nat) : ∀ c ∈ natDigits n, c.isDigit = true := by
  induction n using Nat.strong_induction_on with
  | _ n ih =>
    intro c hc
    rw [natDigits] at hc
    split at hc
    · rcases List.mem_singleton.mp hc with rfl
      exact (digitCh_cases n).1
    · next h =>
      have h10 : n / 10 < n := Nat.div_lt_self (by omega) (by omega)
      rcases List.mem_append.mp hc with hc | hc
      · exact ih _ h10 c hc
      · rcases List.mem_singleton.mp hc with rfl
        exact (digitCh_cases (n % 10)).1

theorem natDigits_ne_nil (n : Nat) : natDigits n ≠ [] := by
  rw [natDigits]
  split
  · exact List.cons_ne_nil _ _
  · intro h
    exact List.cons_ne_nil _ _ (List.append_eq_nil.mp h).2

theorem natDigits_length_le : ∀ n k : Nat, 0 < k → n < 10 ^ k →
    (natDigits n).length ≤ k := by
  intro n
  induction n using Nat.strong_induction_on with
  | _ n ih =>
    intro k hk hn
    rw [natDigits]
    split
    · simpa using hk
    · next h =>
      have h10 : n / 10 < n := Nat.div_lt_self (by omega) (by omega)
      have hk2 : 2 ≤ k := by
        by_contra hcon
        push_neg at hcon
        have hk1 : k = 1 := by omega
        subst hk1
        norm_num at hn
        omega
      have hdiv : n / 10 < 10 ^ (k - 1) := by
        rw [Nat.div_lt_iff_lt_mul (by norm_num : (0 : ℕ) < 10)]
        calc n < 10 ^ k := hn
          _ = 10 ^ (k - 1) * 10 := by
              rw [← pow_succ]
              congr 1
              omega
      have := ih _ h10 (k - 1) (by omega) hdiv
      simp only [List.length_append, List.length_singleton]
      omega

theorem digitsVal_padZeros (k : Nat) (l : List Char) :
    digitsVal (padZeros k l) = digitsVal l := by
  unfold padZeros digitsVal
  rw [List.foldl_append]
  congr 1
  generalize k - l.length = j
  induction j with
  | zero => rfl
  | succ j ihj =>
    rw [List.replicate_succ, List.foldl_cons]
    have h0 : (10 * 0 + ('0'.toNat - 48)) = 0 := by decide
    rw [h0]
    exact ihj

theorem fmtNat_all_digit (k n : Nat) : ∀ c ∈ fmtNat k n, c.isDigit = true := by
  intro c hc
  unfold fmtNat padZeros at hc
  rcases List.mem_append.mp hc with hc | hc
  · rcases List.eq_of_mem_replicate hc with rfl
    decide
  · exact natDigits_all_digit n c hc

theorem fmtNat_ne_nil (k n : Nat) : fmtNat k n ≠ [] := by
  unfold fmtNat padZeros
  intro h
  exact natDigits_ne_nil n (List.append_eq_nil.mp h).2

theorem digitsVal_fmtNat (k n : Nat) : digitsVal (fmtNat k n) = n := by
  unfold fmtNat
  rw [digitsVal_padZeros, natDigits_val]

theorem fmtNat_length (k n : Nat) (hk : 0 < k) (hn : n < 10 ^ k) :
    (fmtNat k n).length = k := by
  have := natDigits_length_le n k hk hn
  unfold fmtNat padZeros
  simp only [List.length_append, List.length_replicate]
  omega

theorem digit_ne_punct (c : Char) (h : c.isDigit = true) : c ≠ ':' ∧ c ≠ '.' := by
  constructor <;> intro he <;> subst he <;> exact absurd h (by decide)

theorem splitOnChar_ne_nil (sep : Char) (l : List Char) : splitOnChar sep l ≠ [] := by
  induction l with
  | nil => simp [splitOnChar]
  | cons c cs ih =>
    rw [splitOnChar]
    split
    · exact List.cons_ne_nil _ _
    · split
      · next heq => exact absurd heq ih
      · exact List.cons_ne_nil _ _

theorem splitOnChar_no_sep (sep : Char) (a : List Char) (h : ∀ c ∈ a, c ≠ sep) :
    splitOnChar sep a = [a] := by
  induction a with
  | nil => rfl
  | cons c cs ih =>
    rw [splitOnChar, if_neg (h c (List.mem_cons_self _ _)),
      ih (fun x hx => h x (List.mem_cons_of_mem _ hx))]

theorem splitOnChar_append (sep : Char) (a b : List Char) (h : ∀ c ∈ a, c ≠ sep) :
    splitOnChar sep (a ++ sep :: b) = a :: splitOnChar sep b := by
  induction a with
  | nil => simp [splitOnChar]
  | cons c cs ih =>
    rw [List.cons_append, splitOnChar, if_neg (h c (List.mem_cons_self _ _)),
      ih (fun x hx => h x (List.mem_cons_of_mem _ hx))]

theorem pyIsDigit_fmtNat (k n : Nat) : pyIsDigit (fmtNat k n) = true := by
  unfold pyIsDigit
  have h1 : (fmtNat k n).isEmpty = false := by
    cases h : fmtNat k n with
    | nil => exact absurd h (fmtNat_ne_nil k n)
    | cons a l => rfl
  have h2 : (fmtNat k n).all Char.isDigit = true :=
    List.all_eq_true.mpr (fun c hc => fmtNat_all_digit k n c hc)
  rw [h1, h2]
  rfl

theorem parseDigits_fmtNat (k n : Nat) : parseDigits (fmtNat k n) = some n := by
  unfold parseDigits
  rw [pyIsDigit_fmtNat, if_pos rfl, digitsVal_fmtNat]

theorem pyFloat_fmtNat (k n : Nat) : pyFloat (fmtNat k n) = some ((n : ℚ)) := by
  unfold pyFloat
  rw [splitOnChar_no_sep '.' _
    (fun c hc => (digit_ne_punct c (fmtNat_all_digit k n c hc)).2)]
  show (if pyIsDigit (fmtNat k n) = true then some ((digitsVal (fmtNat k n) : ℚ)) else none) =
    some ((n : ℚ))
  rw [pyIsDigit_fmtNat, if_pos rfl, digitsVal_fmtNat]

theorem pyFloat_clock_seconds (s f : Nat) (hf : f < 1000) :
    pyFloat (fmtNat 2 s ++ '.' :: fmtNat 3 f) = some ((s : ℚ) + (f : ℚ) / 1000) := by
  unfold pyFloat
  rw [splitOnChar_append '.' _ _
    (fun c hc => (digit_ne_punct c (fmtNat_all_digit 2 s c hc)).2)]
  rw [splitOnChar_no_sep '.' _
    (fun c hc => (digit_ne_punct c (fmtNat_all_digit 3 f c hc)).2)]
  show (if ((!(fmtNat 2 s).isEmpty || !(fmtNat 3 f).isEmpty) &&
        (fmtNat 2 s).all Char.isDigit && (fmtNat 3 f).all Char.isDigit) = true then
      some ((digitsVal (fmtNat 2 s) : ℚ) + (digitsVal (fmtNat 3 f) : ℚ) / 10 ^ (fmtNat 3 f).length)
    else none) = some ((s : ℚ) + (f : ℚ) / 1000)
  have h1 : (fmtNat 2 s).isEmpty = false := by
    cases h : fmtNat 2 s with
    | nil => exact absurd h (fmtNat_ne_nil 2 s)
    | cons a l => rfl
  have h2 : (fmtNat 2 s).all Char.isDigit = true :=
    List.all_eq_true.mpr (fun c hc => fmtNat_all_digit 2 s c hc)
  have h3 : (fmtNat 3 f).all Char.isDigit = true :=
    List.all_eq_true.mpr (fun c hc => fmtNat_all_digit 3 f c hc)
  have hlen : (fmtNat 3 f).length = 3 :=
    fmtNat_length 3 f (by norm_num) (by norm_num; omega)
  rw [h1, h2, h3, hlen]
  simp only [Bool.not_false, Bool.true_or, Bool.and_self, if_pos]
  rw [digitsVal_fmtNat, digitsVal_fmtNat]
  norm_num

theorem roundHalfEven_intCast (k : Int) : roundHalfEven (k : ℚ) = k := by
  unfold roundHalfEven
  rw [Int.floor_intCast]
  norm_num

theorem timestamp_to_seconds_eq (h m s l : List Char)
    (hsplit : splitOnChar ':' l = [h, m, s]) :
    timestamp_to_seconds l =
      match pyFloat h, pyFloat m, pyFloat s with
      | some hv, some mv, some sv => some (pyRound6 (hv * 3600 + mv * 60 + sv))
      | _, _, _ => none := by
  unfold timestamp_to_seconds
  rw [hsplit]

/-- C6 core: parsing the clock text produced for `ms` milliseconds recovers
exactly `ms / 1000` seconds (the timestamp at millisecond precision). -/
theorem clock_text_parse_format (ms : Nat) :
    timestamp_to_seconds (formatClock ms) = some ((ms : ℚ) / 1000) := by
  have hH : ∀ c ∈ fmtNat 2 (ms / 1000 / 3600), c ≠ ':' :=
    fun c hc => (digit_ne_punct c (fmtNat_all_digit _ _ c hc)).1
  have hM : ∀ c ∈ fmtNat 2 (ms / 1000 % 3600 / 60), c ≠ ':' :=
    fun c hc => (digit_ne_punct c (fmtNat_all_digit _ _ c hc)).1
  have hTail : ∀ c ∈ fmtNat 2 (ms / 1000 % 60) ++ '.' :: fmtNat 3 (ms % 1000), c ≠ ':' := by
    intro c hc
    rcases List.mem_append.mp hc with hc | hc
    · exact (digit_ne_punct c (fmtNat_all_digit _ _ c hc)).1
    · rcases List.mem_cons.mp hc with rfl | hc
      · decide
      · exact (digit_ne_punct c (fmtNat_all_digit _ _ c hc)).1
  have hsplit : splitOnChar ':' (formatClock ms) =
      [fmtNat 2 (ms / 1000 / 3600), fmtNat 2 (ms / 1000 % 3600 / 60),
        fmtNat 2 (ms / 1000 % 60) ++ '.' :: fmtNat 3 (ms % 1000)] := by
    unfold formatClock
    rw [splitOnChar_append ':' _ _ hH, splitOnChar_append ':' _ _ hM,
      splitOnChar_no_sep ':' _ hTail]
  rw [timestamp_to_seconds_eq _ _ _ _ hsplit, pyFloat_fmtNat, pyFloat_fmtNat,
    pyFloat_clock_seconds _ _ (Nat.mod_lt _ (by norm_num))]
  show some (pyRound6 _) = _
  have hval : ((ms / 1000 / 3600 : ℕ) : ℚ) * 3600 + ((ms / 1000 % 3600 / 60 : ℕ) : ℚ) * 60 +
      (((ms / 1000 % 60 : ℕ) : ℚ) + ((ms % 1000 : ℕ) : ℚ) / 1000) = (ms : ℚ) / 1000 := by
    have hnat : (ms / 1000 / 3600) * 3600000 + (ms / 1000 % 3600 / 60) * 60000 +
        (ms / 1000 % 60) * 1000 + ms % 1000 = ms := by omega
    have hq : ((ms / 1000 / 3600 : ℕ) : ℚ) * 3600000 + ((ms / 1000 % 3600 / 60 : ℕ) : ℚ) * 60000 +
        ((ms / 1000 % 60 : ℕ) : ℚ) * 1000 + ((ms % 1000 : ℕ) : ℚ) = (ms : ℚ) := by
      exact_mod_cast congrArg (fun n : ℕ => (n : ℚ)) hnat
    field_simp
    linarith
  rw [hval]
  unfold pyRound6
  have harg : (ms : ℚ) / 1000 * 1000000 = (((ms : Int) * 1000 : Int) : ℚ) := by
    push_cast
    ring
  rw [harg, roundHalfEven_intCast]
  push_cast
  ring_nf

/-! ## Bookmark (pbf) decoder — `embedded_mkv_chapters.convert_pbf_to_chapters`

A bookmark line is `key=milliseconds*label*extra`. Lines without both `=`
and `*`, and lines whose millisecond field fails `int()`, are skipped. The
fixed offset `TIMESTAMP_OFFSET_MS` is added and the result clamped at 0.
If the first decoded bookmark starts after 0, a synthetic chapter with the
default label is prepended. -/

def TIMESTAMP_OFFSET_MS : Int := -500

def parseBookmarkLine (line : List Char) : Option (Nat × List Char) :=
  if line.contains '=' && line.contains '*' then
    match afterFirst '=' (stripCh line) with
    | none => none
    | some content =>
      match splitAtMost '*' 2 content with
      | a :: b :: _ =>
        match pyInt a with
        | some ms => some ((max 0 (ms + TIMESTAMP_OFFSET_MS)).toNat, stripCh b)
        | none => none
      | _ => none
  else
    none

def decodePbf (lines : List (List Char)) : List (Nat × List Char) :=
  lines.filterMap parseBookmarkLine

/-- The default label for the synthetic first chapter (the source's literal). -/
def defaultFirstLabel : List Char := "ブックマーク 1".data

/-- The synthetic-first-chapter step (source lines 97-99): looks only at the
bookmark in position 0. -/
def insertSyntheticFirstChapter (l : List (Nat × List Char)) : List (Nat × List Char) :=
  match l with
  | [] => []
  | (t, n) :: rest =>
    if 0 < t then (0, defaultFirstLabel) :: (t, n) :: rest else (t, n) :: rest

/-- The chapter list produced by `convert_pbf_to_chapters` before
serialization: `none` models the "no usable bookmarks" early return. -/
def convert_pbf_chapter_list (lines : List (List Char)) : Option (List (Nat × List Char)) :=
  let b := decodePbf lines
  if b.isEmpty then none else some (insertSyntheticFirstChapter b)

/-- C7: decoding `1=1000*Intro*` and `2=5000*Middle*` with the default
−500 ms offset yields 500 ms "Intro" and 4500 ms "Middle"; since the first
entry starts after 0, a synthetic chapter with the default label is
prepended, giving exactly three entries with the first at 0 ms. -/
theorem pbf_example_three_chapters :
    convert_pbf_chapter_list ["1=1000*Intro*".data, "2=5000*Middle*".data] =
      some [(0, defaultFirstLabel), (500, "Intro".data), (4500, "Middle".data)] := by
  rfl

/-- C8 counterexample: the bookmark lines `1=1000*A*`, `2=400*B*` decode to
entries at 500 ms and 0 ms (the second clamps to 0 after the −500 ms
offset). The decoded list contains an entry whose offset-adjusted timestamp
is 0, yet the synthetic-first-chapter step still inserts an entry (length
2 → 3), because the source checks only the entry in position 0. -/
theorem synthetic_first_chapter_cex :
    decodePbf ["1=1000*A*".data, "2=400*B*".data] = [(500, "A".data), (0, "B".data)] ∧
    insertSyntheticFirstChapter (decodePbf ["1=1000*A*".data, "2=400*B*".data]) =
      [(0, defaultFirstLabel), (500, "A".data), (0, "B".data)] :=
  ⟨rfl, rfl⟩

/-- C8 (amended): the synthetic-first-chapter step adds no entry when the
FIRST entry's offset-adjusted timestamp is 0, and the step is idempotent:
applying it twice never inserts a second synthetic entry. -/
theorem synthetic_first_chapter_noop_idempotent :
    (∀ (title : List Char) (rest : List (Nat × List Char)),
      insertSyntheticFirstChapter ((0, title) :: rest) = (0, title) :: rest) ∧
    (∀ l : List (Nat × List Char),
      insertSyntheticFirstChapter (insertSyntheticFirstChapter l) =
        insertSyntheticFirstChapter l) := by
  constructor
  · intro title rest
    simp [insertSyntheticFirstChapter]
  · intro l
    rcases l with _ | ⟨⟨t, n⟩, rest⟩
    · rfl
    · by_cases h : 0 < t
      · simp [insertSyntheticFirstChapter, h]
      · simp [insertSyntheticFirstChapter, h]

/-! ## OGM chapter-text decoder — `extract_video.parse_chapter_file`

A `CHAPTERnn=...` line (without `NAME`) sets the current chapter number to
`int(line[7:9])` — the clock text after `=` is discarded. A
`CHAPTERnnNAME=...` line appends `(current_number, title)` unless the title
matches the default-title pattern. `current_number` starts as Python
`None`, modelled by `Option Int`; a failing `int()` or a `NAME` line
without `=` raises, modelled by `none`. -/

/-- The rest of `l` after removing the leading segment `p`; `none` if `p`
is not a leading segment of `l`. -/
def dropLead : List Char → List Char → Option (List Char)
  | [], l => some l
  | _, [] => none
  | p :: ps, c :: cs => if p = c then dropLead ps cs else none

/-- Python's substring test `needle in l`. -/
def hasSeg (needle : List Char) : List Char → Bool
  | [] => needle.isEmpty
  | c :: cs => (dropLead needle (c :: cs)).isSome || hasSeg needle cs

/-- `extract_video.is_default_chapter_name`: full match of the regex
`^(Chapter|ブックマーク) \d+$` (ASCII digits). -/
def is_default_chapter_name (name : List Char) : Bool :=
  (match dropLead "Chapter ".data name with
   | some r => pyIsDigit r
   | none => false) ||
  (match dropLead "ブックマーク ".data name with
   | some r => pyIsDigit r
   | none => false)

def parseChapterLines :
    Option Int → List (List Char) → Option (List (Option Int × List Char))
  | _, [] => some []
  | cur, line :: rest =>
    if line.isEmpty then parseChapterLines cur rest
    else if "CHAPTER".data.isPrefixOf line && !(hasSeg "NAME".data line) then
      match pyInt ((line.drop 7).take 2) with
      | some n => parseChapterLines (some n) rest
      | none => none
    else if "CHAPTER".data.isPrefixOf line && hasSeg "NAME".data line then
      match afterFirst '=' line with
      | some name =>
        if is_default_chapter_name name then parseChapterLines cur rest
        else (parseChapterLines cur rest).map (fun res => (cur, name) :: res)
      | none => none
    else parseChapterLines cur rest

def parse_chapter_file (text : List Char) : Option (List (Option Int × List Char)) :=
  parseChapterLines none (splitOnChar '\n' text)

def ogmExampleText : List Char :=
  ("CHAPTER01=00:00:00.000" ++ "\n" ++ "CHAPTER01NAME=Chapter 01" ++ "\n" ++
    "CHAPTER02=00:01:30.500" ++ "\n" ++ "CHAPTER02NAME=Intro").data

/-- C3 counterexample: on the four-line OGM example the decoder yields
exactly one entry, but that entry is `(chapter ordinal 2, "Intro")` — the
decoder stores `int(line[7:9])`, the chapter ordinal, and discards the
clock text — not the claimed `(90500 ms, "Intro")`. -/
theorem ogm_decode_ordinal_cex :
    parse_chapter_file ogmExampleText = some [(some 2, "Intro".data)] ∧
    parse_chapter_file ogmExampleText ≠ some [(some 90500, "Intro".data)] :=
  ⟨rfl, by decide⟩

theorem parseChapterLines_no_default :
    ∀ (lines : List (List Char)) (cur : Option Int) (res : List (Option Int × List Char)),
      parseChapterLines cur lines = some res →
      ∀ p ∈ res, is_default_chapter_name p.2 = false := by
  intro lines
  induction lines with
  | nil =>
    intro cur res h p hp
    rw [parseChapterLines] at h
    cases h
    simp at hp
  | cons line rest ih =>
    intro cur res h p hp
    rw [parseChapterLines] at h
    split at h
    · exact ih cur res h p hp
    · split at h
      · split at h
        · next n _ => exact ih (some n) res h p hp
        · cases h
      · split at h
        · split at h
          · next name _ =>
            split at h
            · exact ih cur res h p hp
            · next hdef =>
              cases hgo : parseChapterLines cur rest with
              | none => rw [hgo] at h; cases h
              | some res0 =>
                rw [hgo] at h
                simp only [Option.map_some'] at h
                cases h
                rcases List.mem_cons.mp hp with rfl | hp0
                · simpa using hdef
                · exact ih cur res0 hgo p hp0
          · cases h
        · exact ih cur res h p hp

/-- C3 (amended): on the four-line OGM example the decoder yields exactly
one entry `(ordinal 2, "Intro")` — the first pair is dropped because its
title matches the default-title pattern — and in general every entry in the
decoder's output has a title that does not match the default-title
pattern. -/
theorem ogm_decode_drops_default_titles :
    parse_chapter_file ogmExampleText = some [(some 2, "Intro".data)] ∧
    ∀ (text : List Char) (res : List (Option Int × List Char)),
      parse_chapter_file text = some res →
      ∀ p ∈ res, is_default_chapter_name p.2 = false := by
  refine ⟨rfl, fun text res h p hp => ?_⟩
  exact parseChapterLines_no_default (splitOnChar '\n' text) none res h p hp

/-- C3 witness: the amended theorem applied to the concrete example. -/
theorem ogm_decode_drops_default_titles_witness :
    is_default_chapter_name ("Intro".data) = false :=
  ogm_decode_drops_default_titles.2 ogmExampleText [(some 2, "Intro".data)]
    (by rfl) (some 2, "Intro".data) (by decide)

/-! ## CSV record set — `write_chapters_for_oldcsv.read_chapters_from_csv`

Each row yields `(float(row start), title)`, where a title of the form
six digits, underscore, rest (and total length > 7) has that 7-character
marker removed. A row whose start field fails `float()` raises, modelled
by `none`. -/

/-- The codepoint ranges of the characters accepted by Python's
`str.isdigit` (Unicode characters with Numeric_Type Decimal or Digit, e.g.
ASCII `0`-`9`, Arabic-Indic and other script digits, fullwidth `０`-`９`,
superscripts and subscripts), from the CPython 3.11 Unicode tables. -/
def pyDigitRanges : List (Nat × Nat) :=
  [(0x30, 0x39), (0xB2, 0xB3), (0xB9, 0xB9), (0x660, 0x669), (0x6F0, 0x6F9),
   (0x7C0, 0x7C9), (0x966, 0x96F), (0x9E6, 0x9EF), (0xA66, 0xA6F),
   (0xAE6, 0xAEF), (0xB66, 0xB6F), (0xBE6, 0xBEF), (0xC66, 0xC6F),
   (0xCE6, 0xCEF), (0xD66, 0xD6F), (0xDE6, 0xDEF), (0xE50, 0xE59),
   (0xED0, 0xED9), (0xF20, 0xF29), (0x1040, 0x1049), (0x1090, 0x1099),
   (0x1369, 0x1371), (0x17E0, 0x17E9), (0x1810, 0x1819), (0x1946, 0x194F),
   (0x19D0, 0x19DA), (0x1A80, 0x1A89), (0x1A90, 0x1A99), (0x1B50, 0x1B59),
   (0x1BB0, 0x1BB9), (0x1C40, 0x1C49), (0x1C50, 0x1C59), (0x2070, 0x2070),
   (0x2074, 0x2079), (0x2080, 0x2089), (0x2460, 0x2468), (0x2474, 0x247C),
   (0x2488, 0x2490), (0x24EA, 0x24EA), (0x24F5, 0x24FD), (0x24FF, 0x24FF),
   (0x2776, 0x277E), (0x2780, 0x2788), (0x278A, 0x2792), (0xA620, 0xA629),
   (0xA8D0, 0xA8D9), (0xA900, 0xA909), (0xA9D0, 0xA9D9), (0xA9F0, 0xA9F9),
   (0xAA50, 0xAA59), (0xABF0, 0xABF9), (0xFF10, 0xFF19), (0x104A0, 0x104A9),
   (0x10A40, 0x10A43), (0x10D30, 0x10D39), (0x10E60, 0x10E68),
   (0x11052, 0x1105A), (0x11066, 0x1106F), (0x110F0, 0x110F9),
   (0x11136, 0x1113F), (0x111D0, 0x111D9), (0x112F0, 0x112F9),
   (0x11450, 0x11459), (0x114D0, 0x114D9), (0x11650, 0x11659),
   (0x116C0, 0x116C9), (0x11730, 0x11739), (0x118E0, 0x118E9),
   (0x11950, 0x11959), (0x11C50, 0x11C59), (0x11D50, 0x11D59),
   (0x11DA0, 0x11DA9), (0x16A60, 0x16A69), (0x16AC0, 0x16AC9),
   (0x16B50, 0x16B59), (0x1D7CE, 0x1D7FF), (0x1E140, 0x1E149),
   (0x1E2F0, 0x1E2F9), (0x1E950, 0x1E959), (0x1F100, 0x1F10A),
   (0x1FBF0, 0x1FBF9)]

/-- A character Python's `str.isdigit` counts as a digit. -/
def pyDigitCh (c : Char) : Bool :=
  pyDigitRanges.any (fun r => decide (r.1 ≤ c.toNat) && decide (c.toNat ≤ r.2))

/-- Python `str.isdigit()`: non-empty and every character a Unicode digit
(not only ASCII: e.g. `"２３０１０１"` is a digit string). -/
def pyStrIsDigit (l : List Char) : Bool := !l.isEmpty && l.all pyDigitCh

/-- The title transform inside `read_chapters_from_csv` (source lines
24-27): `len(title) > 7 and title[6] == "_" and title[:6].isdigit()`. -/
def cleanTitle (t : List Char) : List Char :=
  if decide (7 < t.length) && (t[6]? == some '_') && pyStrIsDigit (t.take 6) then
    t.drop 7
  else t

/-- Python's per-row loop with append, aborted by the first exception. -/
def optMapList {α β : Type} (f : α → Option β) : List α → Option (List β)
  | [] => some []
  | a :: l =>
    match f a, optMapList f l with
    | some b, some bl => some (b :: bl)
    | _, _ => none

def read_chapters_from_csv (rows : List (List Char × List Char)) :
    Option (List (ℚ × List Char)) :=
  optMapList (fun r => (pyFloat r.1).map (fun s => (s, cleanTitle r.2))) rows

theorem cleanTitle_eq (t : List Char) :
    cleanTitle t =
      if 7 < t.length ∧ t[6]? = some '_' ∧
          (t.take 6 ≠ [] ∧ ∀ c ∈ t.take 6, pyDigitCh c = true) then
        t.drop 7
      else t := by
  by_cases h : 7 < t.length ∧ t[6]? = some '_' ∧
      (t.take 6 ≠ [] ∧ ∀ c ∈ t.take 6, pyDigitCh c = true)
  · rw [if_pos h]
    obtain ⟨h1, h2, h3, h4⟩ := h
    unfold cleanTitle
    have hb : (decide (7 < t.length) && (t[6]? == some '_') && pyStrIsDigit (t.take 6)) = true := by
      have he : (t.take 6).isEmpty = false := by
        cases hc : t.take 6 with
        | nil => exact absurd hc h3
        | cons c cs => rfl
      unfold pyStrIsDigit
      rw [he, List.all_eq_true.mpr h4]
      simp [h1, h2]
    rw [hb]
    simp
  · rw [if_neg h]
    unfold cleanTitle
    have hb : (decide (7 < t.length) && (t[6]? == some '_') && pyStrIsDigit (t.take 6)) = false := by
      by_contra hcon
      rw [Bool.not_eq_false] at hcon
      apply h
      unfold pyStrIsDigit at hcon
      simp only [Bool.and_eq_true, decide_eq_true_eq, beq_iff_eq, Bool.not_eq_true',
        List.all_eq_true] at hcon
      obtain ⟨⟨h1, h2⟩, h3, h4⟩ := hcon
      refine ⟨h1, h2, ?_, h4⟩
      intro hnil
      rw [hnil] at h3
      exact absurd h3 (by decide)
    rw [hb]
    simp

theorem optMapList_length {α β : Type} (f : α → Option β) :
    ∀ (l : List α) (out : List β), optMapList f l = some out → out.length = l.length := by
  intro l
  induction l with
  | nil =>
    intro out h
    rw [optMapList] at h
    cases h
    rfl
  | cons a l ih =>
    intro out h
    rw [optMapList] at h
    split at h
    · next b bl hfa hrec =>
      cases h
      simp [ih bl hrec]
    · cases h

theorem optMapList_getElem {α β : Type} (f : α → Option β) :
    ∀ (l : List α) (out : List β), optMapList f l = some out →
      ∀ (i : Nat) (a : α), l[i]? = some a → out[i]? = f a := by
  intro l
  induction l with
  | nil =>
    intro out h i a ha
    simp at ha
  | cons x l ih =>
    intro out h i a ha
    rw [optMapList] at h
    split at h
    · next b bl hfa hrec =>
      cases h
      cases i with
      | zero =>
        simp at ha
        subst ha
        simpa using hfa.symm
      | succ j =>
        simp only [List.getElem?_cons_succ] at ha ⊢
        exact ih bl hrec j a ha
    · cases h

/-- C9: during reconciliation from the flat CSV record set, every title
whose length exceeds 7, whose first six characters are decimal digits
(Unicode digits, per Python's `str.isdigit` — fullwidth `２３０１０１` counts)
and whose seventh character is an underscore loses that 7-character
marker; every other title is carried into the record set unchanged. -/
theorem csv_title_date_marker_removed :
    ∀ (rows : List (List Char × List Char)) (out : List (ℚ × List Char)),
      read_chapters_from_csv rows = some out →
      out.length = rows.length ∧
      ∀ (i : Nat) (r : List Char × List Char), rows[i]? = some r →
        (out[i]?).map Prod.snd =
          some (if 7 < r.2.length ∧ r.2[6]? = some '_' ∧
              (r.2.take 6 ≠ [] ∧ ∀ c ∈ r.2.take 6, pyDigitCh c = true) then
            r.2.drop 7
          else r.2) := by
  intro rows out h
  refine ⟨optMapList_length _ rows out h, fun i r hr => ?_⟩
  have hi := optMapList_getElem _ rows out h i r hr
  rw [hi]
  cases hf : pyFloat r.1 with
  | none =>
    exfalso
    have hirows : i < rows.length := by
      by_contra hcon
      push_neg at hcon
      rw [List.getElem?_eq_none hcon] at hr
      cases hr
    have hival : i < out.length := by
      rw [optMapList_length _ rows out h]
      exact hirows
    rw [List.getElem?_eq_getElem hival] at hi
    rw [hf] at hi
    simp at hi
  | some s =>
    simp only [Option.map_some']
    rw [cleanTitle_eq]

/-- C9 witness: the theorem applied to a one-row record set whose title
carries the marker with fullwidth (non-ASCII) Unicode digits, which
`str.isdigit` accepts, so the marker is stripped. -/
theorem csv_title_date_marker_removed_witness :
    (([((1 : ℚ), "X".data)] : List (ℚ × List Char))[0]?).map Prod.snd =
      some (if 7 < "２３０１０１_X".data.length ∧ "２３０１０１_X".data[6]? = some '_' ∧
          ("２３０１０１_X".data.take 6 ≠ [] ∧
            ∀ c ∈ "２３０１０１_X".data.take 6, pyDigitCh c = true) then
        "２３０１０１_X".data.drop 7
      else "２３０１０１_X".data) :=
  (csv_title_date_marker_removed [("1".data, "２３０１０１_X".data)] [((1 : ℚ), "X".data)]
    (by decide)).2 0 ("1".data, "２３０１０１_X".data) (by decide)

/-! ## Structured chapter markup — `write_chapters_for_oldcsv.update_xml_chapters`

An ElementTree element is modelled with its tag, attributes, text and
children (the `tail` field is never touched by the source and is elided).
`update_xml_chapters` walks every descendant `ChapterAtom`, parses the text
of its first `ChapterTimeStart` child with `timestamp_to_seconds`, and when
the chapter map holds a non-empty title for that value, overwrites the text
of the first `ChapterString` child of the first `ChapterDisplay` child.
Each atom reads only `ChapterTimeStart` texts and writes only
`ChapterString` texts, so the per-atom rewrites are independent and the
sequential ElementTree mutation equals the recursive functional rewrite
below. A missing text or an unparsable timestamp raises (`none`). -/

mutual
inductive XmlNode : Type where
  | elem (tag : String) (attrs : List (String × String)) (text : Option (List Char))
      (children : XmlForest)
inductive XmlForest : Type where
  | nil
  | cons (head : XmlNode) (tail : XmlForest)
end

/-- `element.find(tag)`: first direct child with the given tag. -/
def findChild (tag : String) : XmlForest → Option XmlNode
  | .nil => none
  | .cons n rest =>
    match n with
    | .elem t _ _ _ => if t = tag then some n else findChild tag rest

/-- Replace the first direct child with the given tag (the object that
`find` would return and ElementTree mutates in place). -/
def replaceFirstChild (tag : String) (f : XmlNode → XmlNode) : XmlForest → XmlForest
  | .nil => .nil
  | .cons n rest =>
    match n with
    | .elem t _ _ _ => if t = tag then .cons (f n) rest
        else .cons n (replaceFirstChild tag f rest)

def setNodeText (txt : List Char) : XmlNode → XmlNode
  | .elem t a _ ch => .elem t a (some txt) ch

/-- `dict.get` on the map built by the comprehension (later rows with the
same start time override earlier ones). -/
def lookupLast (m : List (ℚ × List Char)) (k : ℚ) : Option (List Char) :=
  m.foldl (fun acc p => if p.1 = k then some p.2 else acc) none

/-- What `update_xml_chapters` decides for one `ChapterAtom`, reading only
its direct children: `none` = exception; `some none` = leave unchanged;
`some (some title)` = overwrite the title text. -/
def atomDecision (cmap : List (ℚ × List Char)) (ch : XmlForest) :
    Option (Option (List Char)) :=
  match findChild "ChapterTimeStart" ch with
  | none => some none
  | some (.elem _ _ none _) => none
  | some (.elem _ _ (some tstxt) _) =>
    match timestamp_to_seconds tstxt with
    | none => none
    | some secs =>
      match findChild "ChapterDisplay" ch with
      | none => some none
      | some (.elem _ _ _ dispCh) =>
        match findChild "ChapterString" dispCh with
        | none => some none
        | some _ =>
          match lookupLast cmap secs with
          | none => some none
          | some title => if title.isEmpty then some none else some (some title)

/-- Apply an atom's decision: overwrite the text of the first
`ChapterString` child of the first `ChapterDisplay` child. -/
def applyDecision (dec : Option (List Char)) (ch : XmlForest) : XmlForest :=
  match dec with
  | none => ch
  | some title =>
    replaceFirstChild "ChapterDisplay"
      (fun d =>
        match d with
        | .elem t a x dch =>
          .elem t a x (replaceFirstChild "ChapterString" (setNodeText title) dch))
      ch

mutual
def updNode (cmap : List (ℚ × List Char)) : XmlNode → Option XmlNode
  | .elem t a x ch =>
    if t = "ChapterAtom" then
      match atomDecision cmap ch with
      | none => none
      | some dec =>
        match updForest cmap ch with
        | none => none
        | some ch2 => some (.elem t a x (applyDecision dec ch2))
    else
      match updForest cmap ch with
      | none => none
      | some ch2 => some (.elem t a x ch2)
def updForest (cmap : List (ℚ × List Char)) : XmlForest → Option XmlForest
  | .nil => some .nil
  | .cons n rest =>
    match updNode cmap n, updForest cmap rest with
    | some n2, some r2 => some (.cons n2 r2)
    | _, _ => none
end

/-- `update_xml_chapters(xml, chapters)`: `root.findall(".//ChapterAtom")`
matches proper descendants of the root, so the root's own children are
rewritten. -/
def update_xml_chapters (cmap : List (ℚ × List Char)) (root : XmlNode) : Option XmlNode :=
  match root with
  | .elem t a x ch =>
    match updForest cmap ch with
    | none => none
    | some ch2 => some (.elem t a x ch2)

/-- The children of a canonical chapter atom as produced by
`mkvextract chapters`. -/
def atomChildren (ts old : List Char) : XmlForest :=
  .cons (.elem "ChapterTimeStart" [] (some ts) .nil)
    (.cons (.elem "ChapterDisplay" [] none
      (.cons (.elem "ChapterString" [] (some old) .nil) .nil)) .nil)

/-- The canonical chapter-atom shape produced by `mkvextract chapters`. -/
def mkAtom (ts old : List Char) : XmlNode :=
  .elem "ChapterAtom" [] none (atomChildren ts old)

/-- The title the reconciliation leaves on an atom with start text `ts` and
current title `old`. -/
def reconTitle (cmap : List (ℚ × List Char)) (ts old : List Char) : List Char :=
  match timestamp_to_seconds ts with
  | some s =>
    match lookupLast cmap s with
    | some t => if t.isEmpty then old else t
    | none => old
  | none => old

def forestOf : List XmlNode → XmlForest
  | [] => .nil
  | n :: l => .cons n (forestOf l)

theorem updNode_mkAtom (cmap : List (ℚ × List Char)) (ts old : List Char)
    (h : (timestamp_to_seconds ts).isSome = true) :
    updNode cmap (mkAtom ts old) = some (mkAtom ts (reconTitle cmap ts old)) := by
  obtain ⟨s, hs⟩ := Option.isSome_iff_exists.mp h
  have hdec : atomDecision cmap (atomChildren ts old) =
      (match lookupLast cmap s with
       | none => some none
       | some title => if title.isEmpty then some none else some (some title)) := by
    show (match timestamp_to_seconds ts with
          | none => none
          | some secs =>
            match lookupLast cmap secs with
            | none => some none
            | some title => if title.isEmpty then some none else some (some title)) = _
    rw [hs]
  have hforest : updForest cmap (atomChildren ts old) = some (atomChildren ts old) := rfl
  have hrt : reconTitle cmap ts old =
      (match lookupLast cmap s with
       | some t => if t.isEmpty then old else t
       | none => old) := by
    show (match timestamp_to_seconds ts with
          | some s2 =>
            match lookupLast cmap s2 with
            | some t => if t.isEmpty then old else t
            | none => old
          | none => old) = _
    rw [hs]
  have hmain : updNode cmap (mkAtom ts old) =
      (match atomDecision cmap (atomChildren ts old) with
       | none => none
       | some dec =>
         match updForest cmap (atomChildren ts old) with
         | none => none
         | some ch2 => some (.elem "ChapterAtom" [] none (applyDecision dec ch2))) := rfl
  rw [hmain, hdec, hforest, hrt]
  cases hlook : lookupLast cmap s with
  | none => rfl
  | some t =>
    show (match (if t.isEmpty = true then some none else some (some t) :
            Option (Option (List Char))) with
          | none => none
          | some dec =>
            match some (atomChildren ts old) with
            | none => none
            | some ch2 => some (XmlNode.elem "ChapterAtom" [] none (applyDecision dec ch2))) =
        some (mkAtom ts (if t.isEmpty = true then old else t))
    by_cases ht : t.isEmpty = true
    · rw [ht]
      rfl
    · have ht2 : t.isEmpty = false := by
        cases hv : t.isEmpty with
        | true => exact absurd hv ht
        | false => rfl
      rw [ht2]
      rfl

theorem updForest_mkAtoms (cmap : List (ℚ × List Char)) :
    ∀ entries : List (List Char × List Char),
      (∀ e ∈ entries, (timestamp_to_seconds e.1).isSome = true) →
      updForest cmap (forestOf (entries.map (fun e => mkAtom e.1 e.2))) =
        some (forestOf (entries.map (fun e => mkAtom e.1 (reconTitle cmap e.1 e.2)))) := by
  intro entries
  induction entries with
  | nil => intro _; rfl
  | cons e rest ih =>
    intro hall
    have he := hall e (List.mem_cons_self _ _)
    have hrest := ih (fun x hx => hall x (List.mem_cons_of_mem _ hx))
    simp only [List.map_cons]
    have hstep : updForest cmap
        (.cons (mkAtom e.1 e.2) (forestOf (rest.map (fun e => mkAtom e.1 e.2)))) =
        (match updNode cmap (mkAtom e.1 e.2),
              updForest cmap (forestOf (rest.map (fun e => mkAtom e.1 e.2))) with
         | some n2, some r2 => some (.cons n2 r2)
         | _, _ => none) := rfl
    show updForest cmap
        (.cons (mkAtom e.1 e.2) (forestOf (rest.map (fun e => mkAtom e.1 e.2)))) = _
    rw [hstep, updNode_mkAtom cmap e.1 e.2 he, hrest]
    rfl

/-- C4 (amended): for every record map and every chapter tree of canonical
atoms whose start-time texts parse, reconciliation succeeds: each atom
whose rounded start time has a (non-empty) title in the map gets exactly
that title written into its `ChapterString` text, and every atom without a
match — as well as the root's tag, attributes and text — is returned
identical (`reconTitle` returns the old title whenever the map has no
entry for the atom's time). A partial or even empty match is not an
error. -/
theorem reconciliation_updates_matched_titles :
    ∀ (cmap : List (ℚ × List Char)) (rt : String) (ra : List (String × String))
      (rx : Option (List Char)) (entries : List (List Char × List Char)),
      (∀ e ∈ entries, (timestamp_to_seconds e.1).isSome = true) →
      update_xml_chapters cmap
          (.elem rt ra rx (forestOf (entries.map (fun e => mkAtom e.1 e.2)))) =
        some (.elem rt ra rx
          (forestOf (entries.map (fun e => mkAtom e.1 (reconTitle cmap e.1 e.2))))) := by
  intro cmap rt ra rx entries hall
  have h := updForest_mkAtoms cmap entries hall
  show (match updForest cmap (forestOf (entries.map (fun e => mkAtom e.1 e.2))) with
        | none => none
        | some ch2 => some (XmlNode.elem rt ra rx ch2)) = _
  rw [h]

/-- C4 witness: the amended theorem at the spec's own example — atoms at
0 ms and 90.5 s, record set mapping 90.5 s to a new title. -/
theorem reconciliation_updates_matched_titles_witness :
    update_xml_chapters [((181 : ℚ) / 2, "New".data)]
        (.elem "Chapters" [] none
          (forestOf ([("00:00:00.000".data, "A".data),
            ("00:01:30.500".data, "B".data)].map (fun e => mkAtom e.1 e.2)))) =
      some (.elem "Chapters" [] none
        (forestOf ([("00:00:00.000".data, "A".data),
          ("00:01:30.500".data, "B".data)].map
            (fun e => mkAtom e.1
              (reconTitle [((181 : ℚ) / 2, "New".data)] e.1 e.2))))) :=
  reconciliation_updates_matched_titles [((181 : ℚ) / 2, "New".data)] "Chapters" [] none
    [("00:00:00.000".data, "A".data), ("00:01:30.500".data, "B".data)] (by decide)

/-- A chapter tree whose single atom has an unparsable start-time text. -/
def cexBadTree : XmlNode :=
  .elem "Chapters" [] none (.cons (.elem "ChapterAtom" [] none
    (.cons (.elem "ChapterTimeStart" [] (some "bad".data) .nil) .nil)) .nil)

/-- A well-formed one-atom chapter tree. -/
def cexGoodTree : XmlNode :=
  .elem "Chapters" [] none (forestOf [mkAtom "00:00:00.000000000".data "Old".data])

/-- C4 counterexample: an error is NOT tied to an empty record set — with a
non-empty, readable record set the step still raises (here: a malformed
start-time text), while with an EMPTY record set it raises nothing and
returns the tree unchanged. -/
theorem reconciliation_error_cex :
    update_xml_chapters [((0 : ℚ), "T".data)] cexBadTree = none ∧
    update_xml_chapters [] cexGoodTree = some cexGoodTree :=
  ⟨rfl, rfl⟩

/-! ## Conversion pipeline — `convert2mp4.py`

A path is modelled as the pair of everything before the final suffix and
the suffix itself. The external world is a per-job environment: whether
paths exist, what `ffprobe` reports (already reduced to the codec string,
`"unknown"` on probe failure), and whether each stage succeeds. Every
external-process run is recorded in the result's invocation trace;
`tmpCreated`/`tmpDeleted` track the `NamedTemporaryFile` and the `finally`
block's best-effort `unlink` (`unlinkOk = false` models an `unlink` that
raises, which the source logs and swallows). -/

structure MPath where
  stem : List Char
  ext : List Char
deriving DecidableEq

/-- `get_output_path`: `input_path.with_suffix(".mp4")`. -/
def get_output_path (p : MPath) : MPath := ⟨p.stem, ".mp4".data⟩

def SUPPORTED_VIDEO_CODECS : List String := ["h264", "hevc", "av1"]
def SUPPORTED_AUDIO_CODECS : List String := ["aac", "mp3"]

def needs_encode (v a : String) : Bool :=
  !(SUPPORTED_VIDEO_CODECS.contains v) || !(SUPPORTED_AUDIO_CODECS.contains a)

inductive ExtCall where
  | ffprobeVideo
  | ffprobeAudio
  | handbrakeEncode
  | ffmpegCopy
  | ffmpegStripMeta
deriving DecidableEq

inductive JobOutcome where
  | errorCaught
  | notFile
  | probeFailed
  | skippedExists
  | stageFailed
  | emptyOutput
  | metaFailed
  | promoted
deriving DecidableEq

structure JobRes where
  outcome : JobOutcome
  calls : List ExtCall
  tmpCreated : Bool
  tmpDeleted : Bool
deriving DecidableEq

structure ConvEnv where
  pathIsFile : MPath → Bool
  pathExists : MPath → Bool
  vprobe : String
  aprobe : String
  stage1Ok : Bool
  tmpNonEmpty : Bool
  stage2Ok : Bool
  unlinkOk : Bool
  unexpectedError : Bool

/-- `convert_video` (source lines 176-227): skip if the output exists;
otherwise create a temp file, run HandBrake or ffmpeg-copy, verify the
temp is non-empty, strip metadata to the output, and in `finally` delete
the temp on every exit path (deletion failure logged, not raised). -/
def convert_video (env : ConvEnv) (path : MPath) (vcodec acodec : String) : JobRes :=
  if env.pathExists (get_output_path path) then
    ⟨.skippedExists, [], false, false⟩
  else
    let call1 := if needs_encode vcodec acodec then ExtCall.handbrakeEncode
      else ExtCall.ffmpegCopy
    if env.stage1Ok = false then ⟨.stageFailed, [call1], true, env.unlinkOk⟩
    else if env.tmpNonEmpty = false then ⟨.emptyOutput, [call1], true, env.unlinkOk⟩
    else if env.stage2Ok = false then
      ⟨.metaFailed, [call1, .ffmpegStripMeta], true, env.unlinkOk⟩
    else ⟨.promoted, [call1, .ffmpegStripMeta], true, env.unlinkOk⟩

/-- `get_video_info`: `None` without a probe if not a file; the video
stream is probed first and `"unknown"` aborts; only then is audio
probed. -/
def get_video_info (env : ConvEnv) (path : MPath) :
    Option (MPath × String × String) × List ExtCall :=
  if env.pathIsFile path = false then (none, [])
  else if env.vprobe = "unknown" then (none, [.ffprobeVideo])
  else (some (path, env.vprobe, env.aprobe), [.ffprobeVideo, .ffprobeAudio])

/-- `process_single_file`: the whole body is wrapped in `try/except`, so
any unexpected exception is caught and logged and the job ends. -/
def process_single_file (env : ConvEnv) (path : MPath) : JobRes :=
  if env.unexpectedError then ⟨.errorCaught, [], false, false⟩
  else
    match get_video_info env path with
    | (none, calls) =>
      ⟨if env.pathIsFile path then .probeFailed else .notFile, calls, false, false⟩
    | (some (p, v, a), calls) =>
      let r := convert_video env p v a
      ⟨r.outcome, calls ++ r.calls, r.tmpCreated, r.tmpDeleted⟩

/-- `process_paths` + `main`: the pool maps `process_single_file` over the
collected files; `main` never calls `sys.exit` after processing, so with
at least one argument the process exit status is 0 regardless of job
outcomes. -/
def process_batch (jobs : List (ConvEnv × MPath)) : List JobRes × Nat :=
  (jobs.map (fun j => process_single_file j.1 j.2), 0)

/-! ## Chapter embedding — `embedded_mkv_chapters.main` per-file flow -/

inductive PbfOutcome where
  | skippedNotPbf
  | readFailed
  | noBookmarks
  | mkvMissing
  | embedFailed
  | done
deriving DecidableEq

structure PbfRes where
  outcome : PbfOutcome
  tmpCreated : Bool
  tmpDeleted : Bool
deriving DecidableEq

structure PbfEnv where
  readResult : Option (List (List Char))
  mkvExists : Bool
  propeditOk : Bool

/-- ASCII `str.lower`. -/
def lowerCh (c : Char) : Char :=
  if 'A' ≤ c ∧ c ≤ 'Z' then Char.ofNat (c.toNat + 32) else c

/-- One iteration of `embedded_mkv_chapters.main` (source lines 167-196):
non-`.pbf` inputs are skipped; `convert_pbf_to_chapters` writes the temp
chapter file only when bookmarks decoded; if the companion MKV is missing
the temp file is deliberately NOT deleted (the source prints that it was
kept); `mkvpropedit` failure also keeps it; only success unlinks it. -/
def process_pbf (env : PbfEnv) (p : MPath) : PbfRes :=
  if (p.ext.map lowerCh) ≠ ".pbf".data then ⟨.skippedNotPbf, false, false⟩
  else
    match env.readResult with
    | none => ⟨.readFailed, false, false⟩
    | some lines =>
      if (decodePbf lines).isEmpty then ⟨.noBookmarks, false, false⟩
      else if env.mkvExists = false then ⟨.mkvMissing, true, false⟩
      else if env.propeditOk then ⟨.done, true, true⟩
      else ⟨.embedFailed, true, false⟩

/-! ## C1: skip-if-output-exists versus external-tool invocations -/

/-- If the output exists, `convert_video` skips before creating a temp or
running anything. -/
theorem convert_video_skip (env : ConvEnv) (path : MPath) (v a : String)
    (hex : env.pathExists (get_output_path path) = true) :
    convert_video env path v a = ⟨.skippedExists, [], false, false⟩ := by
  unfold convert_video
  rw [if_pos hex]

theorem probe_only_calls_of_output_exists (env : ConvEnv) (path : MPath)
    (hex : env.pathExists (get_output_path path) = true) :
    ((process_single_file env path).calls.all
      (fun c => c == ExtCall.ffprobeVideo || c == ExtCall.ffprobeAudio)) = true := by
  unfold process_single_file get_video_info
  by_cases hu : env.unexpectedError = true
  · rw [if_pos hu]
    rfl
  · rw [if_neg hu]
    by_cases hf : env.pathIsFile path = false
    · rw [if_pos hf]
      rfl
    · rw [if_neg hf]
      by_cases hv : env.vprobe = "unknown"
      · rw [if_pos hv]
        rfl
      · rw [if_neg hv]
        show (([ExtCall.ffprobeVideo, ExtCall.ffprobeAudio] ++
            (convert_video env path env.vprobe env.aprobe).calls).all
              (fun c => c == ExtCall.ffprobeVideo || c == ExtCall.ffprobeAudio)) = true
        rw [convert_video_skip env path env.vprobe env.aprobe hex]
        rfl

theorem skip_outcome_of_output_exists (env : ConvEnv) (path : MPath)
    (hex : env.pathExists (get_output_path path) = true)
    (henv : env.unexpectedError = false) (hfile : env.pathIsFile path = true)
    (hvp : ¬ env.vprobe = "unknown") :
    (process_single_file env path).outcome = .skippedExists := by
  unfold process_single_file get_video_info
  rw [if_neg (by rw [henv]; exact Bool.false_ne_true)]
  rw [if_neg (by rw [hfile]; exact (by decide : ¬ (true = false)))]
  rw [if_neg hvp]
  show (convert_video env path env.vprobe env.aprobe).outcome = .skippedExists
  rw [convert_video_skip env path env.vprobe env.aprobe hex]

/-- C1 (amended): a job whose final output exists reaches `skippedExists`
without any conversion-tool run — but the two `ffprobe` probes DO run
first; consequently a second batch over an already-converted set invokes
only probe calls, never HandBrake or ffmpeg. -/
theorem convert_skip_probes_only :
    (∀ (env : ConvEnv) (path : MPath),
      env.pathExists (get_output_path path) = true →
      ((process_single_file env path).calls.all
        (fun c => c == ExtCall.ffprobeVideo || c == ExtCall.ffprobeAudio)) = true ∧
      (env.unexpectedError = false → env.pathIsFile path = true →
        ¬ env.vprobe = "unknown" →
        (process_single_file env path).outcome = .skippedExists)) ∧
    (∀ jobs : List (ConvEnv × MPath),
      (∀ j ∈ jobs, j.1.pathExists (get_output_path j.2) = true) →
      ∀ r ∈ (process_batch jobs).1,
        (r.calls.all (fun c => c == ExtCall.ffprobeVideo || c == ExtCall.ffprobeAudio)) = true) := by
  constructor
  · intro env path hex
    exact ⟨probe_only_calls_of_output_exists env path hex,
      fun henv hfile hvp => skip_outcome_of_output_exists env path hex henv hfile hvp⟩
  · intro jobs hall r hr
    rcases List.mem_map.mp hr with ⟨j, hj, rfl⟩
    exact probe_only_calls_of_output_exists j.1 j.2 (hall j hj)

def c1Env : ConvEnv :=
  ⟨fun _ => true, fun _ => true, "h264", "aac", true, true, true, true, false⟩

def c1Path : MPath := ⟨"video".data, ".mkv".data⟩

/-- C1 counterexample: a job whose output already exists still invokes the
two `ffprobe` probes (in `get_video_info`, before the exists-check in
`convert_video`), so its invocation trace is non-empty — refuting "no
external tool is invoked" and "zero external tools on the second run". -/
theorem skip_job_invokes_ffprobe_cex :
    process_single_file c1Env c1Path =
      ⟨.skippedExists, [.ffprobeVideo, .ffprobeAudio], false, false⟩ ∧
    ([ExtCall.ffprobeVideo, ExtCall.ffprobeAudio] : List ExtCall) ≠ [] :=
  ⟨rfl, by decide⟩

/-- C1 witness: the amended theorem instantiated at the concrete
environment. -/
theorem convert_skip_probes_only_witness :
    ((process_single_file c1Env c1Path).calls.all
      (fun c => c == ExtCall.ffprobeVideo || c == ExtCall.ffprobeAudio)) = true ∧
    (process_single_file c1Env c1Path).outcome = .skippedExists :=
  ⟨(convert_skip_probes_only.1 c1Env c1Path rfl).1,
    (convert_skip_probes_only.1 c1Env c1Path rfl).2 rfl rfl (by decide)⟩

/-! ## C2: temp-artifact cleanup across exit paths -/

/-- C2 (amended): `convert_video` deletes its temp file on every exit path
that created one (when the deletion itself does not fail), but the
chapter-embed job deletes its temp chapter file exactly on the success
path: a missing companion MKV or a failed `mkvpropedit` leaves it on
disk. -/
theorem cleanup_per_exit_path :
    (∀ (env : ConvEnv) (path : MPath) (v a : String),
      env.unlinkOk = true →
      (convert_video env path v a).tmpCreated = true →
      (convert_video env path v a).tmpDeleted = true) ∧
    (∀ (env : PbfEnv) (p : MPath),
      (process_pbf env p).tmpDeleted = true ↔
        ((process_pbf env p).tmpCreated = true ∧
          (process_pbf env p).outcome = .done)) := by
  constructor
  · intro env path v a hu
    unfold convert_video
    split
    · intro hc
      exact absurd hc (by decide)
    · intro _
      repeat' split
      all_goals exact hu
  · intro env p
    unfold process_pbf
    split
    · decide
    · split
      · decide
      · split
        · decide
        · split
          · decide
          · split
            · decide
            · decide

def c2Env : PbfEnv := ⟨some ["1=1000*Intro*".data], false, true⟩

def c2Path : MPath := ⟨"movie".data, ".pbf".data⟩

/-- C2 counterexample: a pbf job with decodable bookmarks whose companion
MKV is missing ends in the terminal state `mkvMissing` with its temp
chapter file created and NOT deleted (the source prints that the temp file
was kept) — refuting "no terminal state leaves a temporary artifact
behind". -/
theorem mkv_missing_leaves_temp_cex :
    process_pbf c2Env c2Path = ⟨.mkvMissing, true, false⟩ :=
  rfl

def c2wEnv : ConvEnv :=
  ⟨fun _ => true, fun _ => false, "mpeg2video", "ac3", false, true, true, true, false⟩

/-- C2 witness: the amended theorem's conversion half at a failing stage
(temp created, then deleted by the `finally` block). -/
theorem cleanup_per_exit_path_witness :
    (convert_video c2wEnv ⟨"v".data, ".avi".data⟩ "mpeg2video" "ac3").tmpDeleted = true :=
  cleanup_per_exit_path.1 c2wEnv ⟨"v".data, ".avi".data⟩ "mpeg2video" "ac3" rfl (by decide)

/-! ## C5: batch isolation and process exit status -/

/-- C5 (amended): jobs are isolated — the batch result has one entry per
job, each equal to that job's own `process_single_file` run, unaffected by
other jobs — but the orchestrator's exit status is 0 even when jobs
failed (the source never calls `sys.exit` after processing). -/
theorem batch_isolated_exit_zero :
    ∀ (jobs : List (ConvEnv × MPath)) (i : Nat),
      (process_batch jobs).2 = 0 ∧
      (process_batch jobs).1.length = jobs.length ∧
      (process_batch jobs).1[i]? =
        (jobs[i]?).map (fun j => process_single_file j.1 j.2) := by
  intro jobs i
  refine ⟨rfl, by simp [process_batch], ?_⟩
  show (jobs.map (fun j => process_single_file j.1 j.2))[i]? = _
  rw [List.getElem?_map]

def c5Env : ConvEnv :=
  ⟨fun _ => true, fun _ => false, "mpeg2video", "ac3", false, true, true, true, false⟩

def c5Path : MPath := ⟨"clip".data, ".avi".data⟩

def c5EnvB : ConvEnv :=
  ⟨fun _ => true, fun _ => false, "mpeg2video", "ac3", true, true, true, true, false⟩

def c5PathB : MPath := ⟨"clip2".data, ".avi".data⟩

/-- C5 counterexample: in a two-job batch whose first job fails (its
conversion stage returned non-zero) the second job still runs to
`promoted` — but the process exits with status 0, refuting "exits with a
non-zero status if at least one job failed". -/
theorem batch_failure_exit_zero_cex :
    (process_batch [(c5Env, c5Path), (c5EnvB, c5PathB)]).2 = 0 ∧
    (process_batch [(c5Env, c5Path), (c5EnvB, c5PathB)]).1.map (fun r => r.outcome) =
      [.stageFailed, .promoted] :=
  ⟨rfl, rfl⟩

/-! ## C10: `.mp4` inputs map to themselves and are skipped -/

/-- C10: the output path is always the input with its suffix replaced by
`.mp4`; hence for an existing input whose suffix is exactly `.mp4` the
output equals the input, is reported as existing, and `convert_video`
terminates as a skip with no conversion stage run and no temp file
created — the input is never touched. -/
theorem mp4_input_skips_conversion :
    ∀ (env : ConvEnv) (p : MPath) (v a : String),
      p.ext = ".mp4".data → env.pathExists p = true →
      get_output_path p = p ∧
      convert_video env p v a = ⟨.skippedExists, [], false, false⟩ := by
  intro env p v a hext hex
  have hout : get_output_path p = p := by
    cases p with
    | mk stem ext =>
      have hx : ext = ".mp4".data := hext
      unfold get_output_path
      rw [hx]
  refine ⟨hout, ?_⟩
  unfold convert_video
  rw [hout, hex]
  rfl

def c10Env : ConvEnv :=
  ⟨fun _ => true, fun _ => true, "h264", "aac", true, true, true, true, false⟩

/-- C10 witness: the theorem at a concrete existing `.mp4` file. -/
theorem mp4_input_skips_conversion_witness :
    get_output_path ⟨"m".data, ".mp4".data⟩ = ⟨"m".data, ".mp4".data⟩ ∧
    convert_video c10Env ⟨"m".data, ".mp4".data⟩ "h264" "aac" =
      ⟨.skippedExists, [], false, false⟩ :=
  mp4_input_skips_conversion c10Env ⟨"m".data, ".mp4".data⟩ "h264" "aac" rfl rfl

end VideoTools
